import Mathlib

/-!
Shallow embedding of the numeric core of `blender_render.py`
(normalize_points, heatmap_grid, heatmap_barplot) over the reals,
together with proofs of the specified properties.

Python floats are modelled as real numbers.  Python integer narrowing
`int(r)` (truncation toward zero) is modelled by `truncInt`.  Note that
in this real-number model division by zero yields 0 (Lean convention),
whereas IEEE floats would yield NaN/Inf; the relevant claims are stated
so that this difference does not matter (they are about which control
path is taken, not about the junk value produced).
-/

/-- A 2D point, as in the Python code: a pair of floats. -/
abbrev Point : Type := ℝ × ℝ

/-- `np.min` of a sequence of reals (the Python code only applies it to
nonempty data; the `[]` case returns a junk value 0). -/
noncomputable def listMin : List ℝ → ℝ
  | [] => 0
  | [x] => x
  | x :: y :: t => min x (listMin (y :: t))

/-- `np.max` of a sequence of reals (junk value 0 on `[]`). -/
noncomputable def listMax : List ℝ → ℝ
  | [] => 0
  | [x] => x
  | x :: y :: t => max x (listMax (y :: t))

/-- Python `int(r)`: truncation toward zero. -/
noncomputable def truncInt (r : ℝ) : ℤ :=
  if 0 ≤ r then ⌊r⌋ else -⌊-r⌋

/-- `minX` of `normalize_points`: componentwise minimum, first coordinate
(`np.min(data, axis=0)`). -/
noncomputable def minX (pts : List Point) : ℝ := listMin (pts.map Prod.fst)

/-- `minY` of `normalize_points`. -/
noncomputable def minY (pts : List Point) : ℝ := listMin (pts.map Prod.snd)

/-- `maxX` of `normalize_points` (`np.max(data, axis=0)`). -/
noncomputable def maxX (pts : List Point) : ℝ := listMax (pts.map Prod.fst)

/-- `maxY` of `normalize_points`. -/
noncomputable def maxY (pts : List Point) : ℝ := listMax (pts.map Prod.snd)

/-- `rangeX = maxX - minX` in `normalize_points`. -/
noncomputable def rangeX (pts : List Point) : ℝ := maxX pts - minX pts

/-- `rangeY = maxY - minY` in `normalize_points`. -/
noncomputable def rangeY (pts : List Point) : ℝ := maxY pts - minY pts

/-- `normalize_points(points)` from `blender_render.py` lines 17-33:
normalizes points while preserving aspect ratio.  The two numpy
column assignments are modelled by one `List.map` over the points
(the second assignment reads the unmodified second column, so there is
no sequencing subtlety).  The function is total: the source contains no
error path, even when both ranges are zero. -/
noncomputable def normalize_points (pts : List Point) : List Point :=
  if rangeX pts > rangeY pts then
    pts.map (fun p =>
      ((p.1 - minX pts - 0.5 * rangeX pts) / rangeX pts + 0.5,
       (p.2 - minY pts - 0.5 * rangeY pts) / rangeX pts + 0.5))
  else
    pts.map (fun p =>
      ((p.1 - minX pts - 0.5 * rangeX pts) / rangeY pts + 0.5,
       (p.2 - minY pts - 0.5 * rangeY pts) / rangeY pts + 0.5))

/-- The bucket cell of a point in `heatmap_grid` line 42:
`i, j = int(x * (n - 1)), int(y * (n - 1))`. -/
noncomputable def cellIndex (n : ℕ) (p : Point) : ℤ × ℤ :=
  (truncInt (p.1 * ((n : ℝ) - 1)), truncInt (p.2 * ((n : ℝ) - 1)))

/-- The Gaussian kernel contribution of a point `(x, y)` to the cell
centre `(x0, y0)`, `heatmap_grid` lines 59-60. -/
noncomputable def gaussContribution (sigma_sq x0 y0 x y : ℝ) : ℝ :=
  Real.exp (-(x0 - x) ^ 2 / (2 * sigma_sq) - (y0 - y) ^ 2 / (2 * sigma_sq))

/-- The bucket array `X` of `heatmap_grid` lines 39-46, built by appending
each point (in input order) to the list of its cell.  Cells never touched
hold `[]` (the source holds `None` there and skips them in the sum, which
adds the same 0). -/
noncomputable def bucketsFrom (n : ℕ) (pts : List Point) : ℤ × ℤ → List Point :=
  pts.foldl
    (fun X p => fun c => if c = cellIndex n p then X c ++ [p] else X c)
    (fun _ => [])

/-- The neighbourhood search window of `heatmap_grid` lines 55-56: cell
`(i, j)` is visited for target cell `(i0, j0)` iff
`max(0, i0 - m) <= i < min(i0 + m, n)` and likewise for `j`. -/
def inWindow (n m i0 j0 : ℕ) (c : ℤ × ℤ) : Prop :=
  (max 0 ((i0 : ℤ) - m) ≤ c.1 ∧ c.1 < min ((i0 : ℤ) + m) n) ∧
  (max 0 ((j0 : ℤ) - m) ≤ c.2 ∧ c.2 < min ((j0 : ℤ) + m) n)

instance (n m i0 j0 : ℕ) (c : ℤ × ℤ) : Decidable (inWindow n m i0 j0 c) :=
  inferInstanceAs (Decidable (((max 0 ((i0 : ℤ) - m) ≤ c.1 ∧ c.1 < min ((i0 : ℤ) + m) n)) ∧
    ((max 0 ((j0 : ℤ) - m) ≤ c.2 ∧ c.2 < min ((j0 : ℤ) + m) n))))

/-- The value accumulated into `grid[i0][j0]` by `heatmap_grid` lines
50-60: the double loop `for i in range(max(0, i0 - m), min(i0 + m, n))`,
`for j in range(...)` accumulating the Gaussian contribution of every
point stored in bucket `(i, j)`, with cell centre
`x0, y0 = i0 / (n - 1), j0 / (n - 1)`. -/
noncomputable def gridCell (X : ℤ × ℤ → List Point) (sigma_sq : ℝ) (n m i0 j0 : ℕ) : ℝ :=
  ∑ i in Finset.Ico (max 0 ((i0 : ℤ) - m)) (min ((i0 : ℤ) + m) n),
    ∑ j in Finset.Ico (max 0 ((j0 : ℤ) - m)) (min ((j0 : ℤ) + m) n),
      ((X (i, j)).map (fun p =>
        gaussContribution sigma_sq ((i0 : ℝ) / ((n : ℝ) - 1)) ((j0 : ℝ) / ((n : ℝ) - 1))
          p.1 p.2)).sum

/-- `heatmap_grid(data, sigma_sq, n, m)` as written in the source,
lines 36-63.  The bucketing loop at line 40 reads
`for idx in np.arange(len(points))` where `points` is the MODULE-LEVEL
global, not the `data` argument; `pointsLen` is the length of that
global.  If the global is longer than `data`, `data[idx]` raises
`IndexError` (modelled as `none`); otherwise exactly the first
`pointsLen` entries of `data` are bucketed. -/
noncomputable def heatmap_grid (pointsLen : ℕ) (data : List Point)
    (sigma_sq : ℝ) (n m : ℕ) : Option (ℕ → ℕ → ℝ) :=
  if pointsLen ≤ data.length then
    some (fun i0 j0 => gridCell (bucketsFrom n (data.take pointsLen)) sigma_sq n m i0 j0)
  else
    none

/-- `heatmap_grid` as actually invoked by the script (line 187), where
`data = normalize_points(points)` so that `len(points) = len(data)` and
every entry of `data` is bucketed: this is the `buildGrid` contract of
the spec.  The returned grid is the function sending a cell `(i0, j0)`
to its accumulated density. -/
noncomputable def buildGrid (data : List Point) (sigma_sq : ℝ) (n m : ℕ) : ℕ → ℕ → ℝ :=
  fun i0 j0 => gridCell (bucketsFrom n data) sigma_sq n m i0 j0

/-- `bar_height` computed in `heatmap_barplot` line 87. -/
noncomputable def barHeight (h bar_width z z_max : ℝ) : ℝ :=
  (h - bar_width) * z / z_max + bar_width

/-- The colour bucket `k` computed in `heatmap_barplot` lines 88-89. -/
noncomputable def colorBucket (num_colors : ℕ) (z z_max : ℝ) : ℤ :=
  min (truncInt ((num_colors : ℝ) * (1 - Real.exp (-(z / z_max) / 0.2)))) ((num_colors : ℤ) - 1)

/-- The optional elementwise logarithmic transform of `heatmap_barplot`
lines 70-71: `grid = np.log(grid + 1)` when `logarithmic` is set. -/
noncomputable def logTransform (logarithmic : Bool) (grid : ℕ → ℕ → ℝ) : ℕ → ℕ → ℝ :=
  if logarithmic then fun i j => Real.log (grid i j + 1) else grid

/-- `z_max = np.max(grid)` of `heatmap_barplot` line 74, over the
(possibly log-transformed) n by m grid. -/
noncomputable def zMax (grid : ℕ → ℕ → ℝ) (n m : ℕ) : ℝ :=
  listMax ((List.range n).flatMap (fun i => (List.range m).map (fun j => grid i j)))

/-- `bar_width = bar_scale * width / max(n, m)` of `heatmap_barplot`
line 77. -/
noncomputable def barWidth (bar_scale width : ℝ) (n m : ℕ) : ℝ :=
  bar_scale * width / (max n m : ℕ)

/-- The numeric core of `heatmap_barplot(grid, ...)`, lines 66-89: the
optional logarithmic transform, the maximum `z_max`, the bar width, and
the per-cell loop that emits a bar `(i, j, bar_height, k)` exactly for
the cells with `z > 0.001`.  Geometry emission (meshes, materials) is
host-application scene-graph work and out of scope; the emitted list
records every per-cell numeric result the renderer would consume. -/
noncomputable def heatmap_barplot (grid : ℕ → ℕ → ℝ) (n m : ℕ)
    (h width bar_scale : ℝ) (num_colors : ℕ) (logarithmic : Bool) :
    List (ℕ × ℕ × ℝ × ℤ) :=
  (List.range n).flatMap (fun i =>
    (List.range m).flatMap (fun j =>
      if logTransform logarithmic grid i j > 0.001 then
        [(i, j,
          barHeight h (barWidth bar_scale width n m) (logTransform logarithmic grid i j)
            (zMax (logTransform logarithmic grid) n m),
          colorBucket num_colors (logTransform logarithmic grid i j)
            (zMax (logTransform logarithmic grid) n m))]
      else []))

/-! ## Basic lemmas about the bucket structure and accumulation loops -/

/-- The bucket construction loop of `heatmap_grid` lines 40-46, with an
arbitrary starting accumulator: afterwards, cell `c` holds its initial
contents followed by all processed points whose cell index is `c`, in
input order. -/
theorem bucketsFrom_loop (n : ℕ) (pts : List Point) (X0 : ℤ × ℤ → List Point) (c : ℤ × ℤ) :
    (pts.foldl (fun X p => fun d => if d = cellIndex n p then X d ++ [p] else X d) X0) c
      = X0 c ++ pts.filter (fun p => decide (cellIndex n p = c)) := by
  induction pts generalizing X0 with
  | nil => simp
  | cons p t ih =>
    simp only [List.foldl_cons, List.filter_cons]
    rw [ih]
    by_cases h : cellIndex n p = c
    · simp [h, List.append_assoc]
    · have h2 : ¬ c = cellIndex n p := fun hc => h hc.symm
      simp [h, h2]

/-- The bucket array holds exactly the points assigned to each cell. -/
theorem bucketsFrom_apply (n : ℕ) (pts : List Point) (c : ℤ × ℤ) :
    bucketsFrom n pts c = pts.filter (fun p => decide (cellIndex n p = c)) := by
  unfold bucketsFrom
  rw [bucketsFrom_loop]
  simp

/-- Summing a function over a filtered list equals summing the guarded
function over the whole list. -/
theorem filter_map_sum {α : Type} (l : List α) (q : α → Prop) [DecidablePred q]
    (f : α → ℝ) :
    ((l.filter (fun p => decide (q p))).map f).sum
      = (l.map (fun p => if q p then f p else 0)).sum := by
  induction l with
  | nil => simp
  | cons p t ih =>
    by_cases h : q p <;> simp [List.filter_cons, h, ih]

/-- A finite sum of list sums is the list sum of the finite sums. -/
theorem sum_comm_list {α β : Type} (s : Finset β) (l : List α) (g : β → α → ℝ) :
    (∑ b in s, (l.map (g b)).sum) = (l.map (fun a => ∑ b in s, g b a)).sum := by
  induction l with
  | nil => simp
  | cons p t ih => simp [List.map_cons, List.sum_cons, Finset.sum_add_distrib, ih]

/-- Collapsing the double window sum: summing, over all cells of a
rectangular index window, the contributions of the points whose key
equals that cell, is the same as summing the contributions of the
points whose key lies anywhere in the window. -/
theorem sum_window_eq_filter {α : Type} (l : List α) (f : α → ℝ) (key : α → ℤ × ℤ)
    (a b c d : ℤ) :
    (∑ i in Finset.Ico a b, ∑ j in Finset.Ico c d,
        ((l.filter (fun p => decide (key p = (i, j)))).map f).sum)
      = ((l.filter (fun p =>
          decide ((key p).1 ∈ Finset.Ico a b ∧ (key p).2 ∈ Finset.Ico c d))).map f).sum := by
  have step1 : (∑ i in Finset.Ico a b, ∑ j in Finset.Ico c d,
      ((l.filter (fun p => decide (key p = (i, j)))).map f).sum)
      = ∑ i in Finset.Ico a b, ∑ j in Finset.Ico c d,
          (l.map (fun p => if key p = (i, j) then f p else 0)).sum := by
    refine Finset.sum_congr rfl (fun i _ => Finset.sum_congr rfl (fun j _ => ?_))
    exact filter_map_sum l _ f
  rw [step1]
  have step2 : (∑ i in Finset.Ico a b, ∑ j in Finset.Ico c d,
      (l.map (fun p => if key p = (i, j) then f p else 0)).sum)
      = (l.map (fun p => ∑ i in Finset.Ico a b, ∑ j in Finset.Ico c d,
          if key p = (i, j) then f p else 0)).sum := by
    rw [← sum_comm_list]
    refine Finset.sum_congr rfl (fun i _ => ?_)
    rw [← sum_comm_list]
  rw [step2]
  have collapse : ∀ p : α,
      (∑ i in Finset.Ico a b, ∑ j in Finset.Ico c d, if key p = (i, j) then f p else 0)
      = if (key p).1 ∈ Finset.Ico a b ∧ (key p).2 ∈ Finset.Ico c d then f p else 0 := by
    intro p
    rw [← Finset.sum_product']
    rw [Finset.sum_congr rfl (fun x _ => by rw [Prod.mk.eta])]
    rw [Finset.sum_ite_eq]
    simp [Finset.mem_product]
  rw [filter_map_sum l _ f]
  exact congrArg List.sum (congrArg (List.map · l) (funext collapse))

/-! ## Minimum/maximum of mapped lists -/

/-- A monotone map commutes with the minimum of a nonempty list. -/
theorem listMin_map_mono (f : ℝ → ℝ) (hf : Monotone f) (l : List ℝ) (hl : l ≠ []) :
    listMin (l.map f) = f (listMin l) := by
  induction l with
  | nil => exact absurd rfl hl
  | cons x t ih =>
    cases t with
    | nil => simp [listMin]
    | cons y t2 =>
      have ih2 := ih (by simp)
      simp only [List.map_cons] at ih2 ⊢
      simp only [listMin] at ih2 ⊢
      rw [ih2, hf.map_min]

/-- A monotone map commutes with the maximum of a nonempty list. -/
theorem listMax_map_mono (f : ℝ → ℝ) (hf : Monotone f) (l : List ℝ) (hl : l ≠ []) :
    listMax (l.map f) = f (listMax l) := by
  induction l with
  | nil => exact absurd rfl hl
  | cons x t ih =>
    cases t with
    | nil => simp [listMax]
    | cons y t2 =>
      have ih2 := ih (by simp)
      simp only [List.map_cons] at ih2 ⊢
      simp only [listMax] at ih2 ⊢
      rw [ih2, hf.map_max]

/-- A flatMap over a list all of whose images are empty is empty. -/
theorem flatMap_eq_nil_of {α β : Type} (l : List α) (f : α → List β)
    (h : ∀ a ∈ l, f a = []) : l.flatMap f = [] := by
  induction l with
  | nil => rfl
  | cons x t ih =>
    rw [List.flatMap_cons, h x (by simp), ih (fun a ha => h a (by simp [ha]))]
    rfl

/-! ## The normalizer -/

/-- Branch-free description of `normalize_points`: both branches divide
by the larger of the two ranges (when the ranges are equal, the `else`
branch divides by `rangeY`, which is then also the maximum). -/
theorem normalize_points_eq_map (pts : List Point) :
    normalize_points pts =
      pts.map (fun p =>
        ((p.1 - minX pts - 0.5 * rangeX pts) / max (rangeX pts) (rangeY pts) + 0.5,
         (p.2 - minY pts - 0.5 * rangeY pts) / max (rangeX pts) (rangeY pts) + 0.5)) := by
  unfold normalize_points
  by_cases h : rangeX pts > rangeY pts
  · rw [if_pos h, max_eq_left h.le]
  · rw [if_neg h, max_eq_right (not_lt.mp h)]

/-- Every Gaussian kernel contribution is strictly positive. -/
theorem gaussContribution_pos (sigma_sq x0 y0 x y : ℝ) :
    0 < gaussContribution sigma_sq x0 y0 x y :=
  Real.exp_pos _

/-- C3: for every normalized point set and parameters n >= 2, m >= 0,
sigmaSq > 0, each point is bucketed into cell
(floor(x*(n-1)), floor(y*(n-1))), and buildGrid's output cell (i0, j0)
equals the sum of exp(-(x0-x)^2/(2*sigmaSq) - (y0-y)^2/(2*sigmaSq))
over exactly the points whose bucket cell (i, j) satisfies
max(0, i0-m) <= i < min(i0+m, n) and max(0, j0-m) <= j < min(j0+m, n),
where (x0, y0) = (i0/(n-1), j0/(n-1)) - the upper bound of the search
window being exclusive. -/
theorem buildGrid_window_characterization (data : List Point) (sigma_sq : ℝ)
    (n m i0 j0 : ℕ) (hsig : 0 < sigma_sq) (hn : 2 ≤ n)
    (hdata : ∀ p ∈ data, (0 ≤ p.1 ∧ p.1 ≤ 1) ∧ (0 ≤ p.2 ∧ p.2 ≤ 1)) :
    (∀ p ∈ data, cellIndex n p = (⌊p.1 * ((n : ℝ) - 1)⌋, ⌊p.2 * ((n : ℝ) - 1)⌋)) ∧
    buildGrid data sigma_sq n m i0 j0 =
      ((data.filter (fun p => decide (inWindow n m i0 j0 (cellIndex n p)))).map
        (fun p => gaussContribution sigma_sq ((i0 : ℝ) / ((n : ℝ) - 1))
          ((j0 : ℝ) / ((n : ℝ) - 1)) p.1 p.2)).sum := by
  have h2 : (2 : ℝ) ≤ (n : ℝ) := by exact_mod_cast hn
  have hn1 : (0 : ℝ) ≤ (n : ℝ) - 1 := by linarith
  constructor
  · intro p hp
    obtain ⟨⟨hx0, _⟩, ⟨hy0, _⟩⟩ := hdata p hp
    unfold cellIndex truncInt
    rw [if_pos (mul_nonneg hx0 hn1), if_pos (mul_nonneg hy0 hn1)]
  · unfold buildGrid gridCell
    simp only [bucketsFrom_apply]
    rw [sum_window_eq_filter]
    congr 1
    congr 1
    apply List.filter_congr
    intro p _
    apply decide_eq_decide.mpr
    simp [inWindow, Finset.mem_Ico]

/-- C6: for every input, every cell of the grid returned by buildGrid is
non-negative, and every cell whose clamped bucket-neighborhood window
contains no points is exactly 0. -/
theorem buildGrid_nonneg_and_empty_window (data : List Point) (sigma_sq : ℝ)
    (n m i0 j0 : ℕ) :
    0 ≤ buildGrid data sigma_sq n m i0 j0 ∧
    ((∀ p ∈ data, ¬ inWindow n m i0 j0 (cellIndex n p)) →
      buildGrid data sigma_sq n m i0 j0 = 0) := by
  constructor
  · unfold buildGrid gridCell
    refine Finset.sum_nonneg (fun i _ => Finset.sum_nonneg (fun j _ => List.sum_nonneg ?_))
    intro x hx
    simp only [List.mem_map] at hx
    obtain ⟨p, _, rfl⟩ := hx
    exact (gaussContribution_pos _ _ _ _ _).le
  · intro hno
    unfold buildGrid gridCell
    refine Finset.sum_eq_zero (fun i hi => Finset.sum_eq_zero (fun j hj => ?_))
    rw [bucketsFrom_apply]
    have hfil : data.filter (fun p => decide (cellIndex n p = (i, j))) = [] := by
      rw [List.filter_eq_nil_iff]
      intro p hp
      simp only [decide_eq_true_eq]
      intro heq
      apply hno p hp
      rw [heq]
      exact ⟨Finset.mem_Ico.mp hi, Finset.mem_Ico.mp hj⟩
    rw [hfil]
    simp

/-! ## Concrete evaluations -/

/-- The point (0, 0) falls in bucket (0, 0) of the 2 by 2 grid. -/
theorem cellIndex_two_origin : cellIndex 2 ((0 : ℝ), (0 : ℝ)) = (0, 0) := by
  unfold cellIndex truncInt
  norm_num

/-- The bucket array for the single normalized point (0, 0) on a 2 by 2
grid. -/
theorem bucketsFrom_two_origin :
    bucketsFrom 2 [((0 : ℝ), (0 : ℝ))]
      = fun c => if c = ((0 : ℤ), (0 : ℤ)) then [((0 : ℝ), (0 : ℝ))] else [] := by
  funext c
  show (if c = cellIndex 2 ((0 : ℝ), (0 : ℝ))
      then ([] : List Point) ++ [((0 : ℝ), (0 : ℝ))] else []) = _
  rw [cellIndex_two_origin]
  simp

/-- With one point at (0, 0), n = 2, m = 1, sigmaSq = 1, the density at
cell (0, 0) is exp(0) = 1. -/
theorem buildGrid_origin_cell00 : buildGrid [((0 : ℝ), (0 : ℝ))] 1 2 1 0 0 = 1 := by
  unfold buildGrid gridCell
  rw [bucketsFrom_two_origin]
  simp only [Nat.cast_ofNat, Nat.cast_zero, Nat.cast_one]
  rw [show Finset.Ico (max 0 ((0 : ℤ) - 1)) (min ((0 : ℤ) + 1) 2) = {0} from by decide]
  rw [Finset.sum_singleton, Finset.sum_singleton]
  norm_num [gaussContribution]

/-- With one point at (0, 0), n = 2, m = 1, sigmaSq = 1, the density at
cell (1, 1) is exp(-1). -/
theorem buildGrid_origin_cell11 : buildGrid [((0 : ℝ), (0 : ℝ))] 1 2 1 1 1 = Real.exp (-1) := by
  unfold buildGrid gridCell
  rw [bucketsFrom_two_origin]
  simp only [Nat.cast_ofNat, Nat.cast_zero, Nat.cast_one]
  rw [show Finset.Ico (max 0 ((1 : ℤ) - 1)) (min ((1 : ℤ) + 1) 2) = {0, 1} from by decide]
  rw [Finset.sum_pair (by decide : (0 : ℤ) ≠ 1), Finset.sum_pair (by decide : (0 : ℤ) ≠ 1),
    Finset.sum_pair (by decide : (0 : ℤ) ≠ 1)]
  norm_num [gaussContribution]

/-- The grid built from an empty bucketed prefix is identically zero. -/
theorem gridCell_no_points (sigma_sq : ℝ) (n m i0 j0 : ℕ) :
    gridCell (bucketsFrom n []) sigma_sq n m i0 j0 = 0 := by
  unfold gridCell bucketsFrom
  simp

/-- C7: for the input consisting of exactly one normalized point (0, 0)
with n = 2, m = 1, sigmaSq = 1, buildGrid returns a grid with
grid[0][0] = exp(0) = 1 and grid[1][1] = exp(-1). -/
theorem buildGrid_unit_scenario :
    buildGrid [((0 : ℝ), (0 : ℝ))] 1 2 1 0 0 = 1 ∧
    buildGrid [((0 : ℝ), (0 : ℝ))] 1 2 1 1 1 = Real.exp (-1) :=
  ⟨buildGrid_origin_cell00, buildGrid_origin_cell11⟩

/-- C1: the bucketing loop of heatmap_grid iterates over
`np.arange(len(points))` where `points` is the module-level global, so
the function is NOT a pure function of its arguments: with identical
arguments (data = [(0,0)], sigmaSq = 1, n = 2, m = 1) the result varies
with the surrounding program state (length of the global): a global of
length 2 crashes with IndexError, and globals of length 1 and 0 return
different grids. -/
theorem heatmap_grid_depends_on_global_state :
    heatmap_grid 2 [((0 : ℝ), (0 : ℝ))] 1 2 1 = none ∧
    heatmap_grid 1 [((0 : ℝ), (0 : ℝ))] 1 2 1 ≠ heatmap_grid 0 [((0 : ℝ), (0 : ℝ))] 1 2 1 := by
  constructor
  · unfold heatmap_grid
    norm_num
  · intro hcontra
    unfold heatmap_grid at hcontra
    rw [if_pos (by norm_num), if_pos (by norm_num)] at hcontra
    have hfun := Option.some.inj hcontra
    have h00 := congrFun (congrFun hfun 0) 0
    rw [show ([((0 : ℝ), (0 : ℝ))].take 1) = [((0 : ℝ), (0 : ℝ))] from rfl,
      show ([((0 : ℝ), (0 : ℝ))].take 0) = ([] : List Point) from rfl] at h00
    have hL : gridCell (bucketsFrom 2 [((0 : ℝ), (0 : ℝ))]) 1 2 1 0 0 = 1 :=
      buildGrid_origin_cell00
    rw [hL, gridCell_no_points] at h00
    norm_num at h00

/-- C2 (evaluation at the failing input): for the coincident input
[(1,2), (1,2)] both coordinate ranges are zero, yet normalize_points
returns a value instead of failing: no DegenerateInputError exists in
the code, the division by zero is performed silently.  (In this real
model the division by zero yields 0 and every point maps to (0.5, 0.5);
under IEEE floats the same control path silently produces NaN.) -/
theorem normalize_points_degenerate_is_silent :
    rangeX [((1 : ℝ), (2 : ℝ)), ((1 : ℝ), (2 : ℝ))] = 0 ∧
    rangeY [((1 : ℝ), (2 : ℝ)), ((1 : ℝ), (2 : ℝ))] = 0 ∧
    normalize_points [((1 : ℝ), (2 : ℝ)), ((1 : ℝ), (2 : ℝ))]
      = [((0.5 : ℝ), (0.5 : ℝ)), ((0.5 : ℝ), (0.5 : ℝ))] := by
  have h1 : rangeX [((1 : ℝ), (2 : ℝ)), ((1 : ℝ), (2 : ℝ))] = 0 := by
    norm_num [rangeX, maxX, minX, listMax, listMin]
  have h2 : rangeY [((1 : ℝ), (2 : ℝ)), ((1 : ℝ), (2 : ℝ))] = 0 := by
    norm_num [rangeY, maxY, minY, listMax, listMin]
  refine ⟨h1, h2, ?_⟩
  rw [normalize_points_eq_map]
  norm_num [h1, h2, minX, minY, listMin]

/-- C9: the per-point kernel contribution is monotonically non-decreasing
in sigmaSq: for every fixed point-to-cell-centre offset and every pair
sigmaSq2 > sigmaSq1 > 0, the contribution under sigmaSq2 is greater than
or equal to the contribution under sigmaSq1. -/
theorem gaussContribution_mono_in_sigma (x0 y0 x y s1 s2 : ℝ)
    (h1 : 0 < s1) (h12 : s1 < s2) :
    gaussContribution s1 x0 y0 x y ≤ gaussContribution s2 x0 y0 x y := by
  unfold gaussContribution
  apply Real.exp_le_exp.mpr
  have h2 : 0 < s2 := h1.trans h12
  have d1 : (x0 - x) ^ 2 / (2 * s2) ≤ (x0 - x) ^ 2 / (2 * s1) := by
    apply div_le_div_of_nonneg_left (sq_nonneg _) (by linarith) (by linarith)
  have d2 : (y0 - y) ^ 2 / (2 * s2) ≤ (y0 - y) ^ 2 / (2 * s1) := by
    apply div_le_div_of_nonneg_left (sq_nonneg _) (by linarith) (by linarith)
  rw [neg_div, neg_div]
  linarith

/-- C9 witness: the monotonicity at the concrete offset (1,0)->(0,0) and
variances 1 < 2. -/
theorem gaussContribution_mono_in_sigma_witness :
    (0 : ℝ) < 1 ∧ (1 : ℝ) < 2 ∧
    gaussContribution 1 1 0 0 0 ≤ gaussContribution 2 1 0 0 0 :=
  ⟨by norm_num, by norm_num,
    gaussContribution_mono_in_sigma 1 0 0 0 1 2 (by norm_num) (by norm_num)⟩

/-- C10: for every normalized point with both coordinates in [0, 1] and
every grid resolution n >= 2, the bucket indices i = int(x*(n-1)) and
j = int(y*(n-1)) computed in buildGrid lie in [0, n-1] (so the
bucket-array and grid accesses are in bounds), and a coordinate of
exactly 1.0 maps to index n-1, not n. -/
theorem cellIndex_in_bounds (n : ℕ) (p : Point) (hn : 2 ≤ n)
    (hx0 : 0 ≤ p.1) (hx1 : p.1 ≤ 1) (hy0 : 0 ≤ p.2) (hy1 : p.2 ≤ 1) :
    (0 ≤ (cellIndex n p).1 ∧ (cellIndex n p).1 ≤ (n : ℤ) - 1) ∧
    (0 ≤ (cellIndex n p).2 ∧ (cellIndex n p).2 ≤ (n : ℤ) - 1) ∧
    (p.1 = 1 → (cellIndex n p).1 = (n : ℤ) - 1) ∧
    (p.2 = 1 → (cellIndex n p).2 = (n : ℤ) - 1) := by
  have h2 : (2 : ℝ) ≤ (n : ℝ) := by exact_mod_cast hn
  have hn0 : (0 : ℝ) ≤ (n : ℝ) - 1 := by linarith
  have hcast : ((n : ℝ) - 1) = (((n : ℤ) - 1 : ℤ) : ℝ) := by push_cast; ring
  have key : ∀ z : ℝ, 0 ≤ z → z ≤ 1 →
      0 ≤ truncInt (z * ((n : ℝ) - 1)) ∧ truncInt (z * ((n : ℝ) - 1)) ≤ (n : ℤ) - 1 := by
    intro z hz0 hz1
    have harg0 : 0 ≤ z * ((n : ℝ) - 1) := mul_nonneg hz0 hn0
    unfold truncInt
    rw [if_pos harg0]
    refine ⟨Int.floor_nonneg.mpr harg0, ?_⟩
    have harg1 : z * ((n : ℝ) - 1) ≤ (n : ℝ) - 1 := by
      calc z * ((n : ℝ) - 1) ≤ 1 * ((n : ℝ) - 1) := by
            exact mul_le_mul_of_nonneg_right hz1 hn0
        _ = (n : ℝ) - 1 := one_mul _
    calc ⌊z * ((n : ℝ) - 1)⌋ ≤ ⌊(((n : ℤ) - 1 : ℤ) : ℝ)⌋ :=
          Int.floor_le_floor (hcast ▸ harg1)
      _ = (n : ℤ) - 1 := Int.floor_intCast _
  have keyeq : ∀ z : ℝ, z = 1 → truncInt (z * ((n : ℝ) - 1)) = (n : ℤ) - 1 := by
    intro z hz
    subst hz
    unfold truncInt
    rw [if_pos (by linarith : (0 : ℝ) ≤ 1 * ((n : ℝ) - 1))]
    rw [one_mul, hcast]
    exact Int.floor_intCast _
  exact ⟨key p.1 hx0 hx1, key p.2 hy0 hy1, fun h => keyeq p.1 h, fun h => keyeq p.2 h⟩

/-- C10 witness: the bounds at the boundary point (1, 0) with n = 3; the
x coordinate of exactly 1.0 maps to index 2 = 3 - 1. -/
theorem cellIndex_in_bounds_witness :
    2 ≤ 3 ∧
    (0 ≤ (cellIndex 3 ((1 : ℝ), (0 : ℝ))).1 ∧ (cellIndex 3 ((1 : ℝ), (0 : ℝ))).1 ≤ (3 : ℤ) - 1) ∧
    (cellIndex 3 ((1 : ℝ), (0 : ℝ))).1 = (3 : ℤ) - 1 := by
  have h := cellIndex_in_bounds 3 ((1 : ℝ), (0 : ℝ)) (by norm_num)
    (by norm_num) (by norm_num) (by norm_num) (by norm_num)
  refine ⟨by norm_num, ?_, ?_⟩
  · exact_mod_cast h.1
  · exact_mod_cast h.2.2.1 rfl

/-- C8: for an all-zero grid (for example from an empty point set), the
height/color mapping heatmap_barplot is a no-op producing no bars: every
cell value is 0 <= 0.001, so no per-cell height or colour-bucket
computation occurs and no division by zMax = 0 is performed. -/
theorem heatmap_barplot_zero_grid_no_bars (grid : ℕ → ℕ → ℝ) (n m : ℕ)
    (h width bar_scale : ℝ) (num_colors : ℕ) (logarithmic : Bool)
    (hzero : ∀ i j, i < n → j < m → grid i j = 0) :
    heatmap_barplot grid n m h width bar_scale num_colors logarithmic = [] := by
  unfold heatmap_barplot
  apply flatMap_eq_nil_of
  intro i hi
  apply flatMap_eq_nil_of
  intro j hj
  rw [List.mem_range] at hi hj
  have hz : logTransform logarithmic grid i j = 0 := by
    unfold logTransform
    cases logarithmic with
    | false => simpa using hzero i j hi hj
    | true => simp [hzero i j hi hj]
  rw [hz]
  norm_num

/-- C8 witness: the concrete all-zero 2 by 2 grid with the default
mapping configuration produces no bars. -/
theorem heatmap_barplot_zero_grid_no_bars_witness :
    heatmap_barplot (fun _ _ => (0 : ℝ)) 2 2 4 10 0.9 10 false = [] :=
  heatmap_barplot_zero_grid_no_bars (fun _ _ => (0 : ℝ)) 2 2 4 10 0.9 10 false
    (fun _ _ _ _ => rfl)

/-- The first coordinates of the normalized output, as a map over the
original first coordinates. -/
theorem normalize_points_map_fst (pts : List Point) :
    (normalize_points pts).map Prod.fst
      = (pts.map Prod.fst).map
          (fun x => (x - minX pts - 0.5 * rangeX pts)
            / max (rangeX pts) (rangeY pts) + 0.5) := by
  rw [normalize_points_eq_map]
  simp only [List.map_map]
  rfl

/-- The second coordinates of the normalized output, as a map over the
original second coordinates. -/
theorem normalize_points_map_snd (pts : List Point) :
    (normalize_points pts).map Prod.snd
      = (pts.map Prod.snd).map
          (fun x => (x - minY pts - 0.5 * rangeY pts)
            / max (rangeX pts) (rangeY pts) + 0.5) := by
  rw [normalize_points_eq_map]
  simp only [List.map_map]
  rfl

/-- C4: for every input point sequence with at least one nonzero
coordinate range, normalize divides both axes by the larger of rangeX
and rangeY and outputs, in input order,
x' = (x - minX - 0.5*rangeX)/R + 0.5 and y' = (y - minY - 0.5*rangeY)/R + 0.5
with R the dominant range; the bounding box of the output is centered at
(0.5, 0.5) (on each axis the min and max of the output sum to 1), and
the dominant-axis coordinates exactly fill [0, 1]. -/
theorem normalize_points_formula_and_bbox (pts : List Point) (hne : pts ≠ [])
    (hR : 0 < max (rangeX pts) (rangeY pts)) :
    normalize_points pts =
      pts.map (fun p =>
        ((p.1 - minX pts - 0.5 * rangeX pts) / max (rangeX pts) (rangeY pts) + 0.5,
         (p.2 - minY pts - 0.5 * rangeY pts) / max (rangeX pts) (rangeY pts) + 0.5)) ∧
    listMin ((normalize_points pts).map Prod.fst)
        + listMax ((normalize_points pts).map Prod.fst) = 1 ∧
    listMin ((normalize_points pts).map Prod.snd)
        + listMax ((normalize_points pts).map Prod.snd) = 1 ∧
    (rangeY pts ≤ rangeX pts →
      listMin ((normalize_points pts).map Prod.fst) = 0 ∧
      listMax ((normalize_points pts).map Prod.fst) = 1) ∧
    (rangeX pts ≤ rangeY pts →
      listMin ((normalize_points pts).map Prod.snd) = 0 ∧
      listMax ((normalize_points pts).map Prod.snd) = 1) := by
  have hnefst : pts.map Prod.fst ≠ [] := by
    intro hC
    exact hne (List.map_eq_nil_iff.mp hC)
  have hnesnd : pts.map Prod.snd ≠ [] := by
    intro hC
    exact hne (List.map_eq_nil_iff.mp hC)
  have hfmono : Monotone (fun x : ℝ =>
      (x - minX pts - 0.5 * rangeX pts) / max (rangeX pts) (rangeY pts) + 0.5) := by
    intro a b hab
    dsimp only
    gcongr
  have hgmono : Monotone (fun x : ℝ =>
      (x - minY pts - 0.5 * rangeY pts) / max (rangeX pts) (rangeY pts) + 0.5) := by
    intro a b hab
    dsimp only
    gcongr
  have hminf : listMin ((normalize_points pts).map Prod.fst)
      = (minX pts - minX pts - 0.5 * rangeX pts) / max (rangeX pts) (rangeY pts) + 0.5 := by
    rw [normalize_points_map_fst, listMin_map_mono _ hfmono _ hnefst]
    rfl
  have hmaxf : listMax ((normalize_points pts).map Prod.fst)
      = (maxX pts - minX pts - 0.5 * rangeX pts) / max (rangeX pts) (rangeY pts) + 0.5 := by
    rw [normalize_points_map_fst, listMax_map_mono _ hfmono _ hnefst]
    rfl
  have hminy : listMin ((normalize_points pts).map Prod.snd)
      = (minY pts - minY pts - 0.5 * rangeY pts) / max (rangeX pts) (rangeY pts) + 0.5 := by
    rw [normalize_points_map_snd, listMin_map_mono _ hgmono _ hnesnd]
    rfl
  have hmaxy : listMax ((normalize_points pts).map Prod.snd)
      = (maxY pts - minY pts - 0.5 * rangeY pts) / max (rangeX pts) (rangeY pts) + 0.5 := by
    rw [normalize_points_map_snd, listMax_map_mono _ hgmono _ hnesnd]
    rfl
  have hrx : maxX pts - minX pts = rangeX pts := rfl
  have hry : maxY pts - minY pts = rangeY pts := rfl
  refine ⟨normalize_points_eq_map pts, ?_, ?_, ?_, ?_⟩
  · rw [hminf, hmaxf, hrx,
      show minX pts - minX pts - 0.5 * rangeX pts = -(0.5 * rangeX pts) from by ring,
      show rangeX pts - 0.5 * rangeX pts = 0.5 * rangeX pts from by ring, neg_div]
    ring
  · rw [hminy, hmaxy, hry,
      show minY pts - minY pts - 0.5 * rangeY pts = -(0.5 * rangeY pts) from by ring,
      show rangeY pts - 0.5 * rangeY pts = 0.5 * rangeY pts from by ring, neg_div]
    ring
  · intro hdom
    have hMX : max (rangeX pts) (rangeY pts) = rangeX pts := max_eq_left hdom
    have hrpos : 0 < rangeX pts := hMX ▸ hR
    constructor
    · rw [hminf, hMX,
        show minX pts - minX pts - 0.5 * rangeX pts = -(0.5 * rangeX pts) from by ring,
        neg_div, mul_div_assoc, div_self hrpos.ne']
      norm_num
    · rw [hmaxf, hrx, hMX,
        show rangeX pts - 0.5 * rangeX pts = 0.5 * rangeX pts from by ring,
        mul_div_assoc, div_self hrpos.ne']
      norm_num
  · intro hdom
    have hMY : max (rangeX pts) (rangeY pts) = rangeY pts := max_eq_right hdom
    have hrpos : 0 < rangeY pts := hMY ▸ hR
    constructor
    · rw [hminy, hMY,
        show minY pts - minY pts - 0.5 * rangeY pts = -(0.5 * rangeY pts) from by ring,
        neg_div, mul_div_assoc, div_self hrpos.ne']
      norm_num
    · rw [hmaxy, hry, hMY,
        show rangeY pts - 0.5 * rangeY pts = 0.5 * rangeY pts from by ring,
        mul_div_assoc, div_self hrpos.ne']
      norm_num

/-- C4 witness: the point set [(0,0), (2,1)] has dominant range
rangeX = 2 > rangeY = 1; the normalized x coordinates exactly fill
[0, 1]. -/
theorem normalize_points_formula_and_bbox_witness :
    ([((0 : ℝ), (0 : ℝ)), ((2 : ℝ), (1 : ℝ))] : List Point) ≠ [] ∧
    0 < max (rangeX [((0 : ℝ), (0 : ℝ)), ((2 : ℝ), (1 : ℝ))])
        (rangeY [((0 : ℝ), (0 : ℝ)), ((2 : ℝ), (1 : ℝ))]) ∧
    listMin ((normalize_points [((0 : ℝ), (0 : ℝ)), ((2 : ℝ), (1 : ℝ))]).map Prod.fst) = 0 ∧
    listMax ((normalize_points [((0 : ℝ), (0 : ℝ)), ((2 : ℝ), (1 : ℝ))]).map Prod.fst) = 1 := by
  have hne : ([((0 : ℝ), (0 : ℝ)), ((2 : ℝ), (1 : ℝ))] : List Point) ≠ [] := by simp
  have hR : 0 < max (rangeX [((0 : ℝ), (0 : ℝ)), ((2 : ℝ), (1 : ℝ))])
      (rangeY [((0 : ℝ), (0 : ℝ)), ((2 : ℝ), (1 : ℝ))]) := by
    norm_num [rangeX, rangeY, maxX, minX, maxY, minY, listMax, listMin]
  have hdom : rangeY [((0 : ℝ), (0 : ℝ)), ((2 : ℝ), (1 : ℝ))]
      ≤ rangeX [((0 : ℝ), (0 : ℝ)), ((2 : ℝ), (1 : ℝ))] := by
    norm_num [rangeX, rangeY, maxX, minX, maxY, minY, listMax, listMin]
  exact ⟨hne, hR, (normalize_points_formula_and_bbox _ hne hR).2.2.2.1 hdom⟩

/-- C5: normalize is translation- and scale-invariant: for every
non-degenerate point sequence P, every constant offset c, and every
positive uniform scale factor s, normalizing (p + c for p in P) and
normalizing (s*p for p in P) each yield exactly the same output sequence
as normalizing P. -/
theorem normalize_points_translation_scale_invariant (pts : List Point) (c : Point)
    (s : ℝ) (hne : pts ≠ []) (hR : 0 < max (rangeX pts) (rangeY pts)) (hs : 0 < s) :
    normalize_points (pts.map (fun p => (p.1 + c.1, p.2 + c.2))) = normalize_points pts ∧
    normalize_points (pts.map (fun p => (s * p.1, s * p.2))) = normalize_points pts := by
  have hnefst : pts.map Prod.fst ≠ [] := by
    intro hC
    exact hne (List.map_eq_nil_iff.mp hC)
  have hnesnd : pts.map Prod.snd ≠ [] := by
    intro hC
    exact hne (List.map_eq_nil_iff.mp hC)
  have haddmono : ∀ t : ℝ, Monotone (fun x : ℝ => x + t) := by
    intro t a b hab
    dsimp only
    linarith
  have hmulmono : Monotone (fun x : ℝ => s * x) := by
    intro a b hab
    dsimp only
    exact mul_le_mul_of_nonneg_left hab hs.le
  constructor
  · -- translation invariance
    have hTfst : (pts.map (fun p : Point => (p.1 + c.1, p.2 + c.2))).map Prod.fst
        = (pts.map Prod.fst).map (fun x => x + c.1) := by
      simp only [List.map_map]
      rfl
    have hTsnd : (pts.map (fun p : Point => (p.1 + c.1, p.2 + c.2))).map Prod.snd
        = (pts.map Prod.snd).map (fun x => x + c.2) := by
      simp only [List.map_map]
      rfl
    have hminXT : minX (pts.map (fun p : Point => (p.1 + c.1, p.2 + c.2)))
        = minX pts + c.1 := by
      unfold minX
      rw [hTfst, listMin_map_mono _ (haddmono c.1) _ hnefst]
    have hmaxXT : maxX (pts.map (fun p : Point => (p.1 + c.1, p.2 + c.2)))
        = maxX pts + c.1 := by
      unfold maxX
      rw [hTfst, listMax_map_mono _ (haddmono c.1) _ hnefst]
    have hminYT : minY (pts.map (fun p : Point => (p.1 + c.1, p.2 + c.2)))
        = minY pts + c.2 := by
      unfold minY
      rw [hTsnd, listMin_map_mono _ (haddmono c.2) _ hnesnd]
    have hmaxYT : maxY (pts.map (fun p : Point => (p.1 + c.1, p.2 + c.2)))
        = maxY pts + c.2 := by
      unfold maxY
      rw [hTsnd, listMax_map_mono _ (haddmono c.2) _ hnesnd]
    have hrXT : rangeX (pts.map (fun p : Point => (p.1 + c.1, p.2 + c.2)))
        = rangeX pts := by
      unfold rangeX
      rw [hmaxXT, hminXT]
      ring
    have hrYT : rangeY (pts.map (fun p : Point => (p.1 + c.1, p.2 + c.2)))
        = rangeY pts := by
      unfold rangeY
      rw [hmaxYT, hminYT]
      ring
    rw [normalize_points_eq_map, normalize_points_eq_map,
      hminXT, hminYT, hrXT, hrYT, List.map_map]
    have hfun : ((fun p : Point =>
        ((p.1 - (minX pts + c.1) - 0.5 * rangeX pts)
            / max (rangeX pts) (rangeY pts) + 0.5,
         (p.2 - (minY pts + c.2) - 0.5 * rangeY pts)
            / max (rangeX pts) (rangeY pts) + 0.5))
        ∘ (fun p : Point => (p.1 + c.1, p.2 + c.2)))
        = (fun p : Point =>
        ((p.1 - minX pts - 0.5 * rangeX pts) / max (rangeX pts) (rangeY pts) + 0.5,
         (p.2 - minY pts - 0.5 * rangeY pts) / max (rangeX pts) (rangeY pts) + 0.5)) := by
      funext p
      simp only [Function.comp_apply, Prod.mk.injEq]
      constructor
      · rw [show p.1 + c.1 - (minX pts + c.1) - 0.5 * rangeX pts
            = p.1 - minX pts - 0.5 * rangeX pts from by ring]
      · rw [show p.2 + c.2 - (minY pts + c.2) - 0.5 * rangeY pts
            = p.2 - minY pts - 0.5 * rangeY pts from by ring]
    rw [hfun]
  · -- scale invariance
    have hSfst : (pts.map (fun p : Point => (s * p.1, s * p.2))).map Prod.fst
        = (pts.map Prod.fst).map (fun x => s * x) := by
      simp only [List.map_map]
      rfl
    have hSsnd : (pts.map (fun p : Point => (s * p.1, s * p.2))).map Prod.snd
        = (pts.map Prod.snd).map (fun x => s * x) := by
      simp only [List.map_map]
      rfl
    have hminXS : minX (pts.map (fun p : Point => (s * p.1, s * p.2)))
        = s * minX pts := by
      unfold minX
      rw [hSfst, listMin_map_mono _ hmulmono _ hnefst]
    have hmaxXS : maxX (pts.map (fun p : Point => (s * p.1, s * p.2)))
        = s * maxX pts := by
      unfold maxX
      rw [hSfst, listMax_map_mono _ hmulmono _ hnefst]
    have hminYS : minY (pts.map (fun p : Point => (s * p.1, s * p.2)))
        = s * minY pts := by
      unfold minY
      rw [hSsnd, listMin_map_mono _ hmulmono _ hnesnd]
    have hmaxYS : maxY (pts.map (fun p : Point => (s * p.1, s * p.2)))
        = s * maxY pts := by
      unfold maxY
      rw [hSsnd, listMax_map_mono _ hmulmono _ hnesnd]
    have hrXS : rangeX (pts.map (fun p : Point => (s * p.1, s * p.2)))
        = s * rangeX pts := by
      unfold rangeX
      rw [hmaxXS, hminXS]
      ring
    have hrYS : rangeY (pts.map (fun p : Point => (s * p.1, s * p.2)))
        = s * rangeY pts := by
      unfold rangeY
      rw [hmaxYS, hminYS]
      ring
    have hmaxdist : max (s * rangeX pts) (s * rangeY pts)
        = s * max (rangeX pts) (rangeY pts) := by
      rcases le_total (rangeX pts) (rangeY pts) with hle | hle
      · rw [max_eq_right hle, max_eq_right (mul_le_mul_of_nonneg_left hle hs.le)]
      · rw [max_eq_left hle, max_eq_left (mul_le_mul_of_nonneg_left hle hs.le)]
    rw [normalize_points_eq_map, normalize_points_eq_map,
      hminXS, hminYS, hrXS, hrYS, hmaxdist, List.map_map]
    have hfun : ((fun p : Point =>
        ((p.1 - s * minX pts - 0.5 * (s * rangeX pts))
            / (s * max (rangeX pts) (rangeY pts)) + 0.5,
         (p.2 - s * minY pts - 0.5 * (s * rangeY pts))
            / (s * max (rangeX pts) (rangeY pts)) + 0.5))
        ∘ (fun p : Point => (s * p.1, s * p.2)))
        = (fun p : Point =>
        ((p.1 - minX pts - 0.5 * rangeX pts) / max (rangeX pts) (rangeY pts) + 0.5,
         (p.2 - minY pts - 0.5 * rangeY pts) / max (rangeX pts) (rangeY pts) + 0.5)) := by
      funext p
      simp only [Function.comp_apply, Prod.mk.injEq]
      constructor
      · rw [show s * p.1 - s * minX pts - 0.5 * (s * rangeX pts)
            = s * (p.1 - minX pts - 0.5 * rangeX pts) from by ring,
          mul_div_mul_left _ _ hs.ne']
      · rw [show s * p.2 - s * minY pts - 0.5 * (s * rangeY pts)
            = s * (p.2 - minY pts - 0.5 * rangeY pts) from by ring,
          mul_div_mul_left _ _ hs.ne']
    rw [hfun]

/-- C5 witness: invariance at the concrete point set [(0,0), (2,1)],
offset (3, 4) and scale 2. -/
theorem normalize_points_invariance_witness :
    ([((0 : ℝ), (0 : ℝ)), ((2 : ℝ), (1 : ℝ))] : List Point) ≠ [] ∧
    0 < max (rangeX [((0 : ℝ), (0 : ℝ)), ((2 : ℝ), (1 : ℝ))])
        (rangeY [((0 : ℝ), (0 : ℝ)), ((2 : ℝ), (1 : ℝ))]) ∧
    (0 : ℝ) < 2 ∧
    (normalize_points ([((0 : ℝ), (0 : ℝ)), ((2 : ℝ), (1 : ℝ))].map
        (fun p => (p.1 + ((3 : ℝ), (4 : ℝ)).1, p.2 + ((3 : ℝ), (4 : ℝ)).2)))
      = normalize_points [((0 : ℝ), (0 : ℝ)), ((2 : ℝ), (1 : ℝ))] ∧
     normalize_points ([((0 : ℝ), (0 : ℝ)), ((2 : ℝ), (1 : ℝ))].map
        (fun p => (2 * p.1, 2 * p.2)))
      = normalize_points [((0 : ℝ), (0 : ℝ)), ((2 : ℝ), (1 : ℝ))]) := by
  have hne : ([((0 : ℝ), (0 : ℝ)), ((2 : ℝ), (1 : ℝ))] : List Point) ≠ [] := by simp
  have hR : 0 < max (rangeX [((0 : ℝ), (0 : ℝ)), ((2 : ℝ), (1 : ℝ))])
      (rangeY [((0 : ℝ), (0 : ℝ)), ((2 : ℝ), (1 : ℝ))]) := by
    norm_num [rangeX, rangeY, maxX, minX, maxY, minY, listMax, listMin]
  exact ⟨hne, hR, by norm_num,
    normalize_points_translation_scale_invariant
      [((0 : ℝ), (0 : ℝ)), ((2 : ℝ), (1 : ℝ))] ((3 : ℝ), (4 : ℝ)) 2 hne hR (by norm_num)⟩

/-- C3 witness: the window characterization instantiated at the single
normalized point (0, 0) with sigmaSq = 1, n = 2, m = 1 and target cell
(0, 0). -/
theorem buildGrid_window_characterization_witness :
    (0 : ℝ) < 1 ∧ 2 ≤ 2 ∧
    buildGrid [((0 : ℝ), (0 : ℝ))] 1 2 1 0 0 =
      (([((0 : ℝ), (0 : ℝ))].filter
          (fun p => decide (inWindow 2 1 0 0 (cellIndex 2 p)))).map
        (fun p => gaussContribution 1 (((0 : ℕ) : ℝ) / (((2 : ℕ) : ℝ) - 1))
          (((0 : ℕ) : ℝ) / (((2 : ℕ) : ℝ) - 1)) p.1 p.2)).sum := by
  refine ⟨by norm_num, by norm_num,
    (buildGrid_window_characterization [((0 : ℝ), (0 : ℝ))] 1 2 1 0 0
      (by norm_num) (by norm_num) ?_).2⟩
  intro p hp
  simp only [List.mem_singleton] at hp
  subst hp
  norm_num

/-- C6 witness: with the single point (0, 0) on a 4 by 4 grid with
m = 1, the far cell (3, 3) has an empty neighbourhood window and its
density is exactly 0 (and non-negative). -/
theorem buildGrid_nonneg_and_empty_window_witness :
    0 ≤ buildGrid [((0 : ℝ), (0 : ℝ))] 1 4 1 3 3 ∧
    buildGrid [((0 : ℝ), (0 : ℝ))] 1 4 1 3 3 = 0 := by
  have hcell : cellIndex 4 ((0 : ℝ), (0 : ℝ)) = (0, 0) := by
    unfold cellIndex truncInt
    norm_num
  have hno : ∀ p ∈ [((0 : ℝ), (0 : ℝ))], ¬ inWindow 4 1 3 3 (cellIndex 4 p) := by
    intro p hp
    simp only [List.mem_singleton] at hp
    subst hp
    rw [hcell]
    decide
  exact ⟨(buildGrid_nonneg_and_empty_window [((0 : ℝ), (0 : ℝ))] 1 4 1 3 3).1,
    (buildGrid_nonneg_and_empty_window [((0 : ℝ), (0 : ℝ))] 1 4 1 3 3).2 hno⟩
